import Mathlib

/-!
# Verification of the BockDAO blockchain/DAO backend core

Shallow embedding of the ledger and governance state machine described by
the repository's specification: the Chain Store (append-only block
sequence), the Hash Index (block/transaction lookup by digest or height),
the Token Ledger (account balances with atomic transfers), and the
Governance Engine (proposals, votes, treasury).  The repository ships only
the HTTP test scripts for this core; every definition below is therefore
modelled from the specification's contracts, as noted in each doc comment.
-/

namespace BockDAO

/-- Modelled from the spec: the error taxonomy of §7 — `InvalidFormat`,
`NotFound`, `DuplicateKey`/`DuplicateTransaction`/`DuplicateVote`,
`ChainForkRejected`, `InsufficientBalance`/`InvalidAmount`/`InvalidProposal`,
`ProposalClosed`.  All operations report failures synchronously via this
type. -/
inductive Err where
  | InvalidFormat
  | NotFound
  | DuplicateKey
  | DuplicateTransaction
  | DuplicateVote
  | ChainForkRejected
  | InsufficientBalance
  | InvalidAmount
  | InvalidProposal
  | ProposalClosed
deriving DecidableEq, Repr

/-- Addresses are string identifiers (spec §3, Account Balance). -/
abbrev Addr := String

/-- Modelled from the spec: the Token Ledger's account-balance table,
"keyed by address (string identifier), value = non-negative integer token
amount" (§3).  Balances are carried as `Int` so that non-negativity is a
proved invariant of reachable states rather than a typing artifact. -/
abbrev Ledger := List (Addr × Int)

/-- Modelled from the spec: `balanceOf(address)` "returns 0 for unknown
addresses (never an error: an address with no history has zero balance by
definition)" (§4.2). -/
def balanceOf (l : Ledger) (a : Addr) : Int :=
  match l.find? (fun p => p.1 == a) with
  | some p => p.2
  | none => 0

/-- Internal ledger write: bind address `a` to balance `v`, dropping any
previous binding for `a`. -/
def setBalance (l : Ledger) (a : Addr) (v : Int) : Ledger :=
  (a, v) :: l.filter (fun p => !(p.1 == a))

/-- Modelled from the spec: `applyTransfer(from, to, amount)` "debits
`from` and credits `to` atomically; fails with `InsufficientBalance` if
`from`'s balance < amount (no partial application); fails with
`InvalidAmount` if amount ≤ 0" (§4.2). -/
def applyTransfer (l : Ledger) (src dst : Addr) (amount : Int) : Except Err Ledger :=
  if amount ≤ 0 then .error .InvalidAmount
  else if balanceOf l src < amount then .error .InsufficientBalance
  else
    let l1 := setBalance l src (balanceOf l src - amount)
    .ok (setBalance l1 dst (balanceOf l1 dst + amount))

/-- Sum of all account balances held in the ledger. -/
def sumBalances (l : Ledger) : Int :=
  (l.map (fun p => p.2)).sum

/-- Every balance entry stored in the ledger is non-negative. -/
def ledgerNonneg (l : Ledger) : Prop :=
  ∀ p ∈ l, 0 ≤ p.2

instance : DecidablePred ledgerNonneg := fun l =>
  inferInstanceAs (Decidable (∀ p ∈ l, 0 ≤ p.2))

/-- The ledger binds each address at most once. -/
def wfKeys (l : Ledger) : Prop :=
  (l.map Prod.fst).Nodup

instance : DecidablePred wfKeys := fun l =>
  inferInstanceAs (Decidable (l.map Prod.fst).Nodup)

/-! ## Ledger lemmas -/

theorem balanceOf_setBalance_same (l : Ledger) (a : Addr) (v : Int) :
    balanceOf (setBalance l a v) a = v := by
  simp [balanceOf, setBalance, List.find?]

theorem find?_filter_ne (l : Ledger) (a b : Addr) (hab : b ≠ a) :
    (l.filter (fun p => !(p.1 == a))).find? (fun p => p.1 == b)
      = l.find? (fun p => p.1 == b) := by
  induction l with
  | nil => rfl
  | cons hd tl ih =>
    by_cases hk : hd.1 = b
    · have h1 : (hd.1 == b) = true := by simp [hk]
      have h2 : (hd.1 == a) = false := by simp [hk, hab]
      simp [List.filter, h2, List.find?, h1]
    · have h1 : (hd.1 == b) = false := by simp [hk]
      by_cases hka : hd.1 = a
      · have h2 : (hd.1 == a) = true := by simp [hka]
        simp [List.filter, h2, List.find?, h1, ih]
      · have h2 : (hd.1 == a) = false := by simp [hka]
        simp [List.filter, h2, List.find?, h1, ih]

theorem balanceOf_setBalance_ne (l : Ledger) (a b : Addr) (v : Int) (hab : b ≠ a) :
    balanceOf (setBalance l a v) b = balanceOf l b := by
  have hba : (a == b) = false := by
    simp [beq_iff_eq]
    exact fun h => hab h.symm
  simp [balanceOf, setBalance, List.find?, hba, find?_filter_ne l a b hab]

theorem ledgerNonneg_balanceOf {l : Ledger} (h : ledgerNonneg l) (a : Addr) :
    0 ≤ balanceOf l a := by
  unfold balanceOf
  cases hf : l.find? (fun p => p.1 == a) with
  | none => simp
  | some p =>
    have hp : p ∈ l := List.mem_of_find?_eq_some hf
    exact h p hp

theorem ledgerNonneg_setBalance {l : Ledger} (h : ledgerNonneg l)
    {v : Int} (hv : 0 ≤ v) (a : Addr) : ledgerNonneg (setBalance l a v) := by
  intro p hp
  rcases List.mem_cons.mp hp with h1 | h2
  · rw [h1]; exact hv
  · exact h p (List.mem_of_mem_filter h2)

theorem ledgerNonneg_applyTransfer {l l' : Ledger} {src dst : Addr} {amount : Int}
    (h : ledgerNonneg l) (hok : applyTransfer l src dst amount = .ok l') :
    ledgerNonneg l' := by
  unfold applyTransfer at hok
  by_cases h1 : amount ≤ 0
  · simp [h1] at hok
  · by_cases h2 : balanceOf l src < amount
    · simp [h1, h2] at hok
    · simp only [if_neg h1, if_neg h2, Except.ok.injEq] at hok
      subst hok
      have hnn1 : ledgerNonneg (setBalance l src (balanceOf l src - amount)) :=
        ledgerNonneg_setBalance h (by omega) src
      exact ledgerNonneg_setBalance hnn1
        (by
          have := ledgerNonneg_balanceOf hnn1 dst
          omega) dst

theorem sumBalances_split (l : Ledger) (a : Addr) (h : wfKeys l) :
    sumBalances l = balanceOf l a + sumBalances (l.filter (fun p => !(p.1 == a))) := by
  induction l with
  | nil => simp [sumBalances, balanceOf]
  | cons hd tl ih =>
    have hwf : wfKeys tl := by
      unfold wfKeys at h ⊢
      simpa using (List.nodup_cons.mp (by simpa using h)).2
    by_cases hk : hd.1 = a
    · have hnotin : hd.1 ∉ tl.map Prod.fst := by
        unfold wfKeys at h
        exact (List.nodup_cons.mp (by simpa using h)).1
      have hfix : tl.filter (fun p => !(p.1 == a)) = tl := by
        apply List.filter_eq_self.mpr
        intro p hp
        have : p.1 ≠ a := by
          intro hpa
          exact hnotin (by
            rw [hk, ← hpa]
            exact List.mem_map_of_mem Prod.fst hp)
        simp [this]
      have h1 : (hd.1 == a) = true := by simp [hk]
      simp [sumBalances, balanceOf, List.find?, h1, List.filter, hfix]
    · have h1 : (hd.1 == a) = false := by simp [hk]
      have ihv := ih hwf
      simp only [sumBalances, balanceOf, List.find?, h1, List.filter] at *
      simp only [Bool.not_false, List.map_cons, List.sum_cons]
      rw [show ((tl.map fun p => p.2).sum) = _ from ihv]
      ring

theorem wfKeys_filter (l : Ledger) (a : Addr) (h : wfKeys l) :
    wfKeys (l.filter (fun p => !(p.1 == a))) := by
  unfold wfKeys at h ⊢
  exact List.Nodup.sublist ((List.filter_sublist l).map Prod.fst) h

theorem wfKeys_setBalance (l : Ledger) (a : Addr) (v : Int) (h : wfKeys l) :
    wfKeys (setBalance l a v) := by
  unfold wfKeys setBalance
  rw [List.map_cons]
  apply List.nodup_cons.mpr
  refine ⟨?_, wfKeys_filter l a h⟩
  intro hmem
  rcases List.mem_map.mp hmem with ⟨p, hp, hp1⟩
  have := List.of_mem_filter hp
  simp [hp1] at this

theorem sumBalances_setBalance (l : Ledger) (a : Addr) (v : Int) (h : wfKeys l) :
    sumBalances (setBalance l a v) = sumBalances l - balanceOf l a + v := by
  have hs := sumBalances_split l a h
  unfold setBalance
  simp only [sumBalances, List.map_cons, List.sum_cons] at *
  omega

theorem applyTransfer_ok_shape {l l' : Ledger} {src dst : Addr} {amount : Int}
    (hok : applyTransfer l src dst amount = .ok l') :
    0 < amount ∧ amount ≤ balanceOf l src ∧
      l' = setBalance (setBalance l src (balanceOf l src - amount)) dst
        (balanceOf (setBalance l src (balanceOf l src - amount)) dst + amount) := by
  unfold applyTransfer at hok
  by_cases h1 : amount ≤ 0
  · simp [h1] at hok
  · by_cases h2 : balanceOf l src < amount
    · simp [h1, h2] at hok
    · simp only [if_neg h1, if_neg h2, Except.ok.injEq] at hok
      exact ⟨by omega, by omega, hok.symm⟩

theorem wfKeys_applyTransfer {l l' : Ledger} {src dst : Addr} {amount : Int}
    (h : wfKeys l) (hok : applyTransfer l src dst amount = .ok l') : wfKeys l' := by
  rcases applyTransfer_ok_shape hok with ⟨-, -, hshape⟩
  rw [hshape]
  exact wfKeys_setBalance _ dst _ (wfKeys_setBalance l src _ h)

theorem sumBalances_applyTransfer {l l' : Ledger} {src dst : Addr} {amount : Int}
    (h : wfKeys l) (hok : applyTransfer l src dst amount = .ok l') :
    sumBalances l' = sumBalances l := by
  rcases applyTransfer_ok_shape hok with ⟨-, -, hshape⟩
  rw [hshape]
  have h1 : wfKeys (setBalance l src (balanceOf l src - amount)) :=
    wfKeys_setBalance l src _ h
  rw [sumBalances_setBalance _ dst _ h1, sumBalances_setBalance l src _ h]
  ring

theorem applyTransfer_balance_src {l l' : Ledger} {src dst : Addr} {amount : Int}
    (hne : src ≠ dst) (hok : applyTransfer l src dst amount = .ok l') :
    balanceOf l' src + amount = balanceOf l src := by
  rcases applyTransfer_ok_shape hok with ⟨-, -, hshape⟩
  rw [hshape, balanceOf_setBalance_ne _ dst src _ hne, balanceOf_setBalance_same]
  ring

theorem applyTransfer_balance_dst {l l' : Ledger} {src dst : Addr} {amount : Int}
    (hne : src ≠ dst) (hok : applyTransfer l src dst amount = .ok l') :
    balanceOf l' dst = balanceOf l dst + amount := by
  rcases applyTransfer_ok_shape hok with ⟨-, -, hshape⟩
  rw [hshape, balanceOf_setBalance_same,
    balanceOf_setBalance_ne l src dst _ (Ne.symm hne)]

/-! ## Governance Engine -/

/-- Modelled from the spec: proposal status set `{open, passed, rejected,
expired}` (§3).  Constructor names are capitalized because `open` is a Lean
keyword. -/
inductive PStatus where
  | Open
  | Passed
  | Rejected
  | Expired
deriving DecidableEq, Repr

/-- Modelled from the spec: a vote record — "mapping from voter address to
vote weight+choice" (§3), kept as an insertion-ordered association list. -/
abbrev VoteRec := List (Addr × Int × String)

/-- Modelled from the spec: the Proposal record of §3 — id, title,
description, proposal_type, voting_type, duration (seconds), threshold
(percentage 0–100), status, created_at, votes. -/
structure Proposal where
  id : String
  title : String
  description : String
  proposal_type : String
  voting_type : String
  duration : Int
  threshold : Int
  status : PStatus
  created_at : Nat
  votes : VoteRec
deriving DecidableEq, Repr

/-- Modelled from the spec: the payload submitted to `createProposal`
(§4.4 and the POST /dao/proposal body observed in the tests). -/
structure ProposalPayload where
  title : String
  description : String
  proposal_type : String
  voting_type : String
  duration : Int
  threshold : Int
deriving DecidableEq, Repr

/-- Modelled from the spec: the "recognized set" of proposal types (§4.4
names no members; the test corpus submits "general"). -/
def recognizedProposalTypes : List String :=
  ["general", "funding", "parameter_change"]

/-- Modelled from the spec: the "recognized set" of voting types (§4.4
names no members; the test corpus submits "token-based"). -/
def recognizedVotingTypes : List String :=
  ["token-based", "simple"]

/-- Governance Engine state: all proposals in creation order plus the
counter backing unique id assignment. -/
structure GovState where
  proposals : List Proposal
  nextId : Nat
deriving DecidableEq, Repr

/-- Total vote weight cast on the proposal so far. -/
def totalCast (p : Proposal) : Int :=
  (p.votes.map (fun v => v.2.1)).sum

/-- Total weight cast for a given choice. -/
def weightFor (p : Proposal) (c : String) : Int :=
  ((p.votes.filter (fun v => v.2.2 == c)).map (fun v => v.2.1)).sum

/-- Modelled from the spec: the tally policy of §4.4 — the approving
weight is compared "against threshold percent of total voting power cast
(not total supply)".  The approval choice is fixed as the string "yes". -/
def thresholdMet (p : Proposal) : Bool :=
  decide (0 < totalCast p) && decide (p.threshold * totalCast p ≤ weightFor p "yes" * 100)

/-- The proposal's voting deadline: `created_at + duration` (§4.4). -/
def deadlineOf (p : Proposal) : Int :=
  (p.created_at : Int) + p.duration

/-- Modelled from the spec: the lazy status evaluation of §4.4/§9 — a pure
function of the proposal and the current time: `open` transitions to
`passed` when the tally crosses the threshold, and when the duration
elapses without the threshold met it becomes `rejected` (votes were cast)
or `expired` (no votes). -/
def evaluateStatus (p : Proposal) (now : Nat) : PStatus :=
  if p.status ≠ .Open then p.status
  else if thresholdMet p then .Passed
  else if (now : Int) < deadlineOf p then .Open
  else if 0 < totalCast p then .Rejected
  else .Expired

/-- Modelled from the spec: `createProposal(payload)` "validates
title/description non-empty, proposal_type/voting_type are from a
recognized set, duration > 0, 0 ≤ threshold ≤ 100; assigns a unique id;
status = open; fails with `InvalidProposal` on violation" (§4.4). -/
def createProposal (g : GovState) (pl : ProposalPayload) (now : Nat) :
    Except Err (String × GovState) :=
  if pl.title = "" then .error .InvalidProposal
  else if pl.description = "" then .error .InvalidProposal
  else if pl.proposal_type ∉ recognizedProposalTypes then .error .InvalidProposal
  else if pl.voting_type ∉ recognizedVotingTypes then .error .InvalidProposal
  else if pl.duration ≤ 0 then .error .InvalidProposal
  else if pl.threshold < 0 ∨ 100 < pl.threshold then .error .InvalidProposal
  else
    let pid := "P" ++ toString g.nextId
    .ok (pid,
      { proposals := g.proposals ++
          [{ id := pid, title := pl.title, description := pl.description,
             proposal_type := pl.proposal_type, voting_type := pl.voting_type,
             duration := pl.duration, threshold := pl.threshold,
             status := .Open, created_at := now, votes := [] }],
        nextId := g.nextId + 1 })

/-- Modelled from the spec: `listProposals()` "returns all proposals in
creation order" (§4.4). -/
def listProposals (g : GovState) : List Proposal :=
  g.proposals

/-- Modelled from the spec: `getProposal(id)` "fails with `NotFound` if
absent" (§4.4). -/
def getProposal (g : GovState) (pid : String) : Except Err Proposal :=
  match g.proposals.find? (fun p => p.id == pid) with
  | some p => .ok p
  | none => .error .NotFound

/-- Append one vote record to a proposal. -/
def addVote (p : Proposal) (voter : Addr) (w : Int) (choice : String) : Proposal :=
  { p with votes := p.votes ++ [(voter, w, choice)] }

/-- Modelled from the spec: `castVote(proposalId, voter, choice)` "fails
with `ProposalClosed` if status != open or deadline passed; fails with
`DuplicateVote` if voter already voted"; the weight is "the voter's
current Token Ledger balance at time of vote" (§4.4). -/
def castVote (g : GovState) (l : Ledger) (pid : String) (voter : Addr)
    (choice : String) (now : Nat) : Except Err GovState :=
  match g.proposals.find? (fun p => p.id == pid) with
  | none => .error .NotFound
  | some p =>
    if evaluateStatus p now ≠ .Open then .error .ProposalClosed
    else if p.votes.any (fun v => v.1 == voter) then .error .DuplicateVote
    else
      let upd := fun (q : Proposal) =>
        if q.id == pid then addVote q voter (balanceOf l voter) choice else q
      .ok { g with proposals := g.proposals.map upd }

/-! ## Chain Store and Hash Index -/

/-- Modelled from the spec: the kind-specific payload of a Transaction —
"kind: {transfer, proposal_create, vote, treasury_transfer}" with
kind-specific fields (§3). -/
inductive TxPayload where
  | transfer (src dst : Addr) (amount : Int)
  | proposalCreate (pl : ProposalPayload)
  | vote (pid : String) (voter : Addr) (choice : String)
  | treasuryTransfer (pid : String) (dst : Addr) (amount : Int)
deriving DecidableEq, Repr

/-- Modelled from the spec: a Transaction — "hash: fixed-length digest
unique across the whole chain" plus its kind-specific payload (§3). -/
structure Tx where
  hash : String
  payload : TxPayload
deriving DecidableEq, Repr

/-- Modelled from the spec: a Block — height, hash, parent_hash (null only
for height 0), ordered transactions, timestamp (§3). -/
structure Block where
  height : Nat
  hash : String
  parent_hash : Option String
  transactions : List Tx
  timestamp : Nat
deriving DecidableEq, Repr

/-- The whole core state: Chain Store (blocks), Hash Index over
transactions, Token Ledger, Treasury balance, Governance Engine. -/
structure ChainState where
  blocks : List Block
  txIndex : List (String × Tx)
  ledger : Ledger
  treasury : Int
  gov : GovState
deriving DecidableEq, Repr

/-- The transaction hashes currently indexed. -/
def txKeys (s : ChainState) : List String :=
  s.txIndex.map Prod.fst

/-- The hash of the current tip (§3: parent_hash of an appended block must
equal it; `none` before genesis). -/
def tipHash (s : ChainState) : Option String :=
  s.blocks.getLast?.map Block.hash

/-- Record a transaction in the Hash Index. -/
def recordTx (s : ChainState) (tx : Tx) : ChainState :=
  { s with txIndex := s.txIndex ++ [(tx.hash, tx)] }

/-- Modelled from the spec: `applyTreasuryTransfer` — "identical
[to applyTransfer] but source is the Treasury singleton account and
requires a `passed` Proposal reference" (§4.2); the Treasury is "mutated
only by treasury_transfer transactions that require prior passage of a
funding proposal" (§3). -/
def applyTreasury (s : ChainState) (pid : String) (dst : Addr) (amount : Int)
    (now : Nat) : Except Err ChainState :=
  match s.gov.proposals.find? (fun p => p.id == pid) with
  | none => .error .NotFound
  | some p =>
    if evaluateStatus p now ≠ .Passed then .error .InvalidProposal
    else if amount ≤ 0 then .error .InvalidAmount
    else if s.treasury < amount then .error .InsufficientBalance
    else .ok { s with
      treasury := s.treasury - amount,
      ledger := setBalance s.ledger dst (balanceOf s.ledger dst + amount) }

/-- Modelled from the spec: validation and application of one transaction
during block commit — "every transaction hash is globally unique (else
`DuplicateTransaction`)" and each kind's effect is applied through the
corresponding component contract (§4.3). -/
def applyTx (s : ChainState) (now : Nat) (tx : Tx) : Except Err ChainState :=
  if (txKeys s).contains tx.hash then .error .DuplicateTransaction
  else
    match tx.payload with
    | .transfer src dst a =>
      match applyTransfer s.ledger src dst a with
      | .error e => .error e
      | .ok l' => .ok (recordTx { s with ledger := l' } tx)
    | .proposalCreate pl =>
      match createProposal s.gov pl now with
      | .error e => .error e
      | .ok r => .ok (recordTx { s with gov := r.2 } tx)
    | .vote pid voter choice =>
      match castVote s.gov s.ledger pid voter choice now with
      | .error e => .error e
      | .ok g' => .ok (recordTx { s with gov := g' } tx)
    | .treasuryTransfer pid dst a =>
      match applyTreasury s pid dst a now with
      | .error e => .error e
      | .ok s' => .ok (recordTx s' tx)

/-- Sequential application of a block's transactions, in transaction
order; the first failure aborts the whole computation (§4.3). -/
def applyTxs (s : ChainState) (now : Nat) : List Tx → Except Err ChainState
  | [] => .ok s
  | tx :: rest =>
    match applyTx s now tx with
    | .error e => .error e
    | .ok s' => applyTxs s' now rest

/-- Modelled from the spec: `appendBlock(block)` — "validates height ==
currentHeight+1, parent_hash == hash of current tip (else fails with
`ChainForkRejected`)", then validates and applies every transaction
all-or-nothing; on success it commits the effects, indexes the block and
its transactions, and advances the tip (§4.3). -/
def appendBlock (s : ChainState) (b : Block) : Except Err ChainState :=
  if b.height ≠ s.blocks.length then .error .ChainForkRejected
  else if b.parent_hash ≠ tipHash s then .error .ChainForkRejected
  else
    match applyTxs s b.timestamp b.transactions with
    | .error e => .error e
    | .ok s' => .ok { s' with blocks := s'.blocks ++ [b] }

/-- Is this character a hexadecimal digit? -/
def isHexDigit (c : Char) : Bool :=
  c.isDigit || ('a' ≤ c && c ≤ 'f') || ('A' ≤ c && c ≤ 'F')

/-- Modelled from the spec: a well-formed digest is "a fixed-length hex
digest" (§4.1); the test corpus fixes the length at 64 characters. -/
def isDigest (q : String) : Bool :=
  q.length == 64 && q.toList.all isHexDigit

/-- A well-formed non-negative integer height string: non-empty, decimal
digits only (§4.1). -/
def isHeightStr (q : String) : Bool :=
  !q.toList.isEmpty && q.toList.all Char.isDigit

/-- Decimal value of a digit string. -/
def strToNat (q : String) : Nat :=
  q.toList.foldl (fun n c => n * 10 + (c.toNat - ('0').toNat)) 0

/-- Modelled from the spec: the tagged union `{ByHash(digest) |
ByHeight(uint)}` produced by the boundary parser of a "hashorid" (§9). -/
inductive HashOrId where
  | ByHash (h : String)
  | ByHeight (n : Nat)
deriving DecidableEq, Repr

/-- Modelled from the spec: the boundary parser — accepts "either a
fixed-length hex digest or a non-negative integer height string" (§4.1),
anything else is rejected. -/
def parseHashOrId (q : String) : Option HashOrId :=
  if isDigest q then some (.ByHash q)
  else if isHeightStr q then some (.ByHeight (strToNat q))
  else none

/-- Modelled from the spec: `getBlock` — resolves a height to the block at
that height or a digest to the block with that hash; "fails with
`NotFound` when absent, `InvalidFormat` when the input is neither a
well-formed digest nor a well-formed non-negative integer" (§4.1, §4.3). -/
def getBlock (s : ChainState) (q : String) : Except Err Block :=
  match parseHashOrId q with
  | none => .error .InvalidFormat
  | some (.ByHeight n) =>
    match s.blocks[n]? with
    | some b => .ok b
    | none => .error .NotFound
  | some (.ByHash h) =>
    match s.blocks.find? (fun b => b.hash == h) with
    | some b => .ok b
    | none => .error .NotFound

/-- Modelled from the spec: `getTransaction` — looks a transaction up by
its digest with the format/existence error semantics of §4.1 (digests
only: a height does not identify a transaction). -/
def getTransaction (s : ChainState) (q : String) : Except Err Tx :=
  if isDigest q then
    match s.txIndex.find? (fun p => p.1 == q) with
    | some p => .ok p.2
    | none => .error .NotFound
  else .error .InvalidFormat

/-- Modelled from the spec: the treasury balance query backing
GET /dao/treasury — total, "returns the balance, never an error". -/
def treasuryBalance (s : ChainState) : Int :=
  s.treasury

/-! ## Top-level operations and reachability -/

/-- The write operations a caller can drive the core with: block
application plus the independent governance/token writes of §2's control
flow. -/
inductive Op where
  | block (b : Block)
  | propose (pl : ProposalPayload) (now : Nat)
  | voteCast (pid : String) (voter : Addr) (choice : String) (now : Nat)
  | transferTok (src dst : Addr) (amount : Int)
  | treasurySpend (pid : String) (dst : Addr) (amount : Int) (now : Nat)

/-- Caller-level semantics of one operation: a rejected operation "leaves
all state exactly as before the call" (§5), so the caller's view of a
failure is the unchanged state. -/
def step (s : ChainState) : Op → ChainState
  | .block b =>
    match appendBlock s b with
    | .ok s' => s'
    | .error _ => s
  | .propose pl now =>
    match createProposal s.gov pl now with
    | .ok r => { s with gov := r.2 }
    | .error _ => s
  | .voteCast pid v c now =>
    match castVote s.gov s.ledger pid v c now with
    | .ok g' => { s with gov := g' }
    | .error _ => s
  | .transferTok src dst a =>
    match applyTransfer s.ledger src dst a with
    | .ok l' => { s with ledger := l' }
    | .error _ => s
  | .treasurySpend pid dst a now =>
    match applyTreasury s pid dst a now with
    | .ok s' => s'
    | .error _ => s

/-- Run a sequence of operations. -/
def run (s : ChainState) (ops : List Op) : ChainState :=
  ops.foldl step s

/-- The empty core state over a genesis token allocation `l0` and an
initial treasury endowment `t0`. -/
def initState (l0 : Ledger) (t0 : Nat) : ChainState :=
  { blocks := [], txIndex := [], ledger := l0, treasury := (t0 : Int),
    gov := { proposals := [], nextId := 0 } }

/-- States reachable from an initial state (whose genesis allocation holds
only non-negative balances) by any sequence of operations. -/
def Reachable (s : ChainState) : Prop :=
  ∃ l0 t0 ops, ledgerNonneg l0 ∧ s = run (initState l0 t0) ops

/-! ## Structural invariants of the chain -/

/-- Heights form the gapless 0-based sequence of positions (§3, §8). -/
def heightsOk (bs : List Block) : Prop :=
  ∀ i (h : i < bs.length), (bs.get ⟨i, h⟩).height = i

/-- Every block's parent_hash is the previous block's hash (§3, §8). -/
def parentsOk (bs : List Block) : Prop :=
  ∀ j (hj : j + 1 < bs.length),
    (bs.get ⟨j + 1, hj⟩).parent_hash = some (bs.get ⟨j, Nat.lt_of_succ_lt hj⟩).hash

/-! ## Shape lemmas for transaction application -/

theorem applyTreasury_ok_shape {s s' : ChainState} {pid : String} {dst : Addr}
    {amount : Int} {now : Nat}
    (hok : applyTreasury s pid dst amount now = .ok s') :
    ∃ p, s.gov.proposals.find? (fun q => q.id == pid) = some p ∧
      evaluateStatus p now = .Passed ∧ 0 < amount ∧ amount ≤ s.treasury ∧
      s' = { s with treasury := s.treasury - amount,
                    ledger := setBalance s.ledger dst (balanceOf s.ledger dst + amount) } := by
  unfold applyTreasury at hok
  cases hf : s.gov.proposals.find? (fun q => q.id == pid) with
  | none => rw [hf] at hok; simp at hok
  | some p =>
    rw [hf] at hok
    by_cases h1 : evaluateStatus p now ≠ .Passed
    · simp [h1] at hok
    · by_cases h2 : amount ≤ 0
      · simp [h1, h2] at hok
      · by_cases h3 : s.treasury < amount
        · simp [h1, h2, h3] at hok
        · simp only [if_neg h1, if_neg h2, if_neg h3, Except.ok.injEq] at hok
          exact ⟨p, rfl, by simpa using h1, by omega, by omega, hok.symm⟩

theorem applyTx_ok_shape {s s' : ChainState} {now : Nat} {tx : Tx}
    (hok : applyTx s now tx = .ok s') :
    ¬ ((txKeys s).contains tx.hash = true) ∧
    ((∃ src dst a l', tx.payload = .transfer src dst a ∧
        applyTransfer s.ledger src dst a = .ok l' ∧
        s' = recordTx { s with ledger := l' } tx) ∨
     (∃ pl r, tx.payload = .proposalCreate pl ∧
        createProposal s.gov pl now = .ok r ∧
        s' = recordTx { s with gov := r.2 } tx) ∨
     (∃ pid voter choice g', tx.payload = .vote pid voter choice ∧
        castVote s.gov s.ledger pid voter choice now = .ok g' ∧
        s' = recordTx { s with gov := g' } tx) ∨
     (∃ pid dst a s₀, tx.payload = .treasuryTransfer pid dst a ∧
        applyTreasury s pid dst a now = .ok s₀ ∧
        s' = recordTx s₀ tx)) := by
  unfold applyTx at hok
  split at hok
  · simp at hok
  · rename_i hc
    refine ⟨hc, ?_⟩
    split at hok
    · rename_i src dst a hp
      split at hok
      · simp at hok
      · rename_i l' hap
        simp only [Except.ok.injEq] at hok
        exact Or.inl ⟨src, dst, a, l', hp, hap, hok.symm⟩
    · rename_i pl hp
      split at hok
      · simp at hok
      · rename_i r hap
        simp only [Except.ok.injEq] at hok
        exact Or.inr (Or.inl ⟨pl, r, hp, hap, hok.symm⟩)
    · rename_i pid voter choice hp
      split at hok
      · simp at hok
      · rename_i g' hap
        simp only [Except.ok.injEq] at hok
        exact Or.inr (Or.inr (Or.inl ⟨pid, voter, choice, g', hp, hap, hok.symm⟩))
    · rename_i pid dst a hp
      split at hok
      · simp at hok
      · rename_i s₀ hap
        simp only [Except.ok.injEq] at hok
        exact Or.inr (Or.inr (Or.inr ⟨pid, dst, a, s₀, hp, hap, hok.symm⟩))

theorem applyTx_blocks {s s' : ChainState} {now : Nat} {tx : Tx}
    (hok : applyTx s now tx = .ok s') : s'.blocks = s.blocks := by
  rcases (applyTx_ok_shape hok).2 with
    ⟨_, _, _, _, _, _, h⟩ | ⟨_, _, _, _, h⟩ | ⟨_, _, _, _, _, _, h⟩ | ⟨_, _, _, s₀, _, hap, h⟩
  · rw [h]; rfl
  · rw [h]; rfl
  · rw [h]; rfl
  · rcases applyTreasury_ok_shape hap with ⟨_, _, _, _, _, hs₀⟩
    rw [h, hs₀]; rfl

theorem applyTx_txIndex {s s' : ChainState} {now : Nat} {tx : Tx}
    (hok : applyTx s now tx = .ok s') :
    s'.txIndex = s.txIndex ++ [(tx.hash, tx)] := by
  rcases (applyTx_ok_shape hok).2 with
    ⟨_, _, _, _, _, _, h⟩ | ⟨_, _, _, _, h⟩ | ⟨_, _, _, _, _, _, h⟩ | ⟨_, _, _, s₀, _, hap, h⟩
  · rw [h]; rfl
  · rw [h]; rfl
  · rw [h]; rfl
  · rcases applyTreasury_ok_shape hap with ⟨_, _, _, _, _, hs₀⟩
    rw [h, hs₀]; rfl

theorem applyTx_inv {s s' : ChainState} {now : Nat} {tx : Tx}
    (hl : ledgerNonneg s.ledger) (ht : 0 ≤ s.treasury)
    (hok : applyTx s now tx = .ok s') :
    ledgerNonneg s'.ledger ∧ 0 ≤ s'.treasury := by
  rcases (applyTx_ok_shape hok).2 with
    ⟨src, dst, a, l', _, hap, h⟩ | ⟨_, _, _, _, h⟩ | ⟨_, _, _, _, _, _, h⟩ |
    ⟨pid, dst, a, s₀, _, hap, h⟩
  · rw [h]
    exact ⟨ledgerNonneg_applyTransfer hl hap, ht⟩
  · rw [h]; exact ⟨hl, ht⟩
  · rw [h]; exact ⟨hl, ht⟩
  · rcases applyTreasury_ok_shape hap with ⟨_, _, _, hpos, hle, hs₀⟩
    rw [h, hs₀]
    constructor
    · exact ledgerNonneg_setBalance hl
        (by have := ledgerNonneg_balanceOf hl dst; omega) dst
    · simp only [recordTx]
      omega

theorem applyTxs_blocks {now : Nat} :
    ∀ {txs : List Tx} {s s' : ChainState},
      applyTxs s now txs = .ok s' → s'.blocks = s.blocks := by
  intro txs
  induction txs with
  | nil => intro s s' hok; simp only [applyTxs, Except.ok.injEq] at hok; rw [← hok]
  | cons tx rest ih =>
    intro s s' hok
    simp only [applyTxs] at hok
    cases hap : applyTx s now tx with
    | error e => rw [hap] at hok; simp at hok
    | ok s₀ =>
      rw [hap] at hok
      rw [ih hok, applyTx_blocks hap]

theorem applyTxs_inv {now : Nat} :
    ∀ {txs : List Tx} {s s' : ChainState},
      ledgerNonneg s.ledger → 0 ≤ s.treasury →
      applyTxs s now txs = .ok s' → ledgerNonneg s'.ledger ∧ 0 ≤ s'.treasury := by
  intro txs
  induction txs with
  | nil =>
    intro s s' hl ht hok
    simp only [applyTxs, Except.ok.injEq] at hok
    rw [← hok]; exact ⟨hl, ht⟩
  | cons tx rest ih =>
    intro s s' hl ht hok
    simp only [applyTxs] at hok
    cases hap : applyTx s now tx with
    | error e => rw [hap] at hok; simp at hok
    | ok s₀ =>
      rw [hap] at hok
      rcases applyTx_inv hl ht hap with ⟨hl₀, ht₀⟩
      exact ih hl₀ ht₀ hok

theorem applyTxs_txKeys_mono {now : Nat} :
    ∀ {txs : List Tx} {s s' : ChainState},
      applyTxs s now txs = .ok s' →
      ∀ h ∈ txKeys s, h ∈ txKeys s' := by
  intro txs
  induction txs with
  | nil =>
    intro s s' hok h hmem
    simp only [applyTxs, Except.ok.injEq] at hok
    rw [← hok]; exact hmem
  | cons tx rest ih =>
    intro s s' hok h hmem
    simp only [applyTxs] at hok
    cases hap : applyTx s now tx with
    | error e => rw [hap] at hok; simp at hok
    | ok s₀ =>
      rw [hap] at hok
      refine ih hok h ?_
      have hidx := applyTx_txIndex hap
      unfold txKeys at hmem ⊢
      rw [hidx]
      simp only [List.map_append, List.mem_append]
      exact Or.inl hmem

/-- A transaction whose hash is already indexed makes the whole
transaction sequence fail. -/
theorem applyTxs_dup_rejected {now : Nat} :
    ∀ {txs : List Tx} {s : ChainState} {tx : Tx},
      tx ∈ txs → tx.hash ∈ txKeys s →
      ∀ s', applyTxs s now txs ≠ .ok s' := by
  intro txs
  induction txs with
  | nil => intro s tx hmem; simp at hmem
  | cons hd rest ih =>
    intro s tx hmem hdup s' hok
    simp only [applyTxs] at hok
    cases hap : applyTx s now hd with
    | error e => rw [hap] at hok; simp at hok
    | ok s₀ =>
      rw [hap] at hok
      rcases List.mem_cons.mp hmem with heq | htl
      · have hc := (applyTx_ok_shape hap).1
        rw [← heq] at hc
        exact hc (by simpa using List.elem_eq_true_of_mem hdup)
      · have hdup₀ : tx.hash ∈ txKeys s₀ := by
          have hidx := applyTx_txIndex hap
          unfold txKeys at hdup ⊢
          rw [hidx]
          simp only [List.map_append, List.mem_append]
          exact Or.inl hdup
        exact ih htl hdup₀ s' hok

theorem appendBlock_ok_shape {s s' : ChainState} {b : Block}
    (hok : appendBlock s b = .ok s') :
    b.height = s.blocks.length ∧ b.parent_hash = tipHash s ∧
    ∃ s₀, applyTxs s b.timestamp b.transactions = .ok s₀ ∧
      s' = { s₀ with blocks := s₀.blocks ++ [b] } := by
  unfold appendBlock at hok
  by_cases h1 : b.height ≠ s.blocks.length
  · simp [h1] at hok
  · by_cases h2 : b.parent_hash ≠ tipHash s
    · simp [h1, h2] at hok
    · rw [if_neg h1, if_neg h2] at hok
      cases hap : applyTxs s b.timestamp b.transactions with
      | error e => rw [hap] at hok; simp at hok
      | ok s₀ =>
        rw [hap] at hok
        simp only [Except.ok.injEq] at hok
        exact ⟨by omega, by tauto, s₀, rfl, hok.symm⟩

theorem chainOk_append {bs : List Block} {b : Block}
    (hh : heightsOk bs) (hp : parentsOk bs)
    (hht : b.height = bs.length)
    (hpt : b.parent_hash = bs.getLast?.map Block.hash) :
    heightsOk (bs ++ [b]) ∧ parentsOk (bs ++ [b]) := by
  have hlast : ∀ (h : bs.length < (bs ++ [b]).length),
      (bs ++ [b]).get ⟨bs.length, h⟩ = b := by
    intro h
    rw [List.get_eq_getElem]
    simp
  have hleft : ∀ i (hi : i < bs.length) (h2 : i < (bs ++ [b]).length),
      (bs ++ [b]).get ⟨i, h2⟩ = bs.get ⟨i, hi⟩ := by
    intro i hi h2
    rw [List.get_eq_getElem, List.get_eq_getElem]
    exact List.getElem_append_left hi
  constructor
  · intro i hi
    have hi' : i < bs.length + 1 := by simpa using hi
    by_cases hlt : i < bs.length
    · rw [hleft i hlt]
      exact hh i hlt
    · have hieq : i = bs.length := by omega
      have : (⟨i, hi⟩ : Fin (bs ++ [b]).length)
          = ⟨bs.length, by simp⟩ := by
        apply Fin.ext
        exact hieq
      rw [this, hlast]
      omega
  · intro j hj
    have hj' : j + 1 < bs.length + 1 := by simpa using hj
    by_cases hlt : j + 1 < bs.length
    · rw [hleft (j + 1) hlt, hleft j (Nat.lt_of_succ_lt hlt)]
      exact hp j hlt
    · have hjeq : j + 1 = bs.length := by omega
      have hjlt : j < bs.length := by omega
      have hfin : (⟨j + 1, hj⟩ : Fin (bs ++ [b]).length)
          = ⟨bs.length, by simp⟩ := by
        apply Fin.ext
        exact hjeq
      rw [hfin, hlast, hleft j hjlt, hpt]
      have hgl : bs.getLast? = some (bs.get ⟨j, hjlt⟩) := by
        rw [List.getLast?_eq_getElem?, List.get_eq_getElem]
        rw [show bs.length - 1 = j from by omega]
        exact List.getElem?_eq_getElem hjlt
      rw [hgl]
      rfl

/-- The value invariants: every stored balance and the treasury are
non-negative (§3). -/
def Inv (s : ChainState) : Prop :=
  ledgerNonneg s.ledger ∧ 0 ≤ s.treasury

/-- The structural invariants of the Chain Store (§3). -/
def ChainInv (s : ChainState) : Prop :=
  heightsOk s.blocks ∧ parentsOk s.blocks

theorem step_inv {s : ChainState} (h : Inv s) (op : Op) : Inv (step s op) := by
  obtain ⟨hl, ht⟩ := h
  cases op with
  | block b =>
    simp only [step]
    cases happ : appendBlock s b with
    | error e => exact ⟨hl, ht⟩
    | ok s' =>
      rcases appendBlock_ok_shape happ with ⟨-, -, s₀, htxs, hs'⟩
      rcases applyTxs_inv hl ht htxs with ⟨hl₀, ht₀⟩
      rw [hs']
      exact ⟨hl₀, ht₀⟩
  | propose pl now =>
    simp only [step]
    cases hcp : createProposal s.gov pl now with
    | error e => exact ⟨hl, ht⟩
    | ok r => exact ⟨hl, ht⟩
  | voteCast pid v c now =>
    simp only [step]
    cases hcv : castVote s.gov s.ledger pid v c now with
    | error e => exact ⟨hl, ht⟩
    | ok g' => exact ⟨hl, ht⟩
  | transferTok src dst a =>
    simp only [step]
    cases hat : applyTransfer s.ledger src dst a with
    | error e => exact ⟨hl, ht⟩
    | ok l' => exact ⟨ledgerNonneg_applyTransfer hl hat, ht⟩
  | treasurySpend pid dst a now =>
    simp only [step]
    cases hts : applyTreasury s pid dst a now with
    | error e => exact ⟨hl, ht⟩
    | ok s' =>
      rcases applyTreasury_ok_shape hts with ⟨p, -, -, hpos, hle, hs'⟩
      rw [hs']
      constructor
      · exact ledgerNonneg_setBalance hl
          (by have := ledgerNonneg_balanceOf hl dst; omega) dst
      · simp only
        omega

theorem step_blocks_shape (s : ChainState) (op : Op) :
    (step s op).blocks = s.blocks ∨
    ∃ b, (step s op).blocks = s.blocks ++ [b] ∧
      b.height = s.blocks.length ∧ b.parent_hash = tipHash s := by
  cases op with
  | block b =>
    simp only [step]
    cases happ : appendBlock s b with
    | error e => exact Or.inl rfl
    | ok s' =>
      rcases appendBlock_ok_shape happ with ⟨hht, hpt, s₀, htxs, hs'⟩
      refine Or.inr ⟨b, ?_, hht, hpt⟩
      rw [hs']
      simp only
      rw [applyTxs_blocks htxs]
  | propose pl now =>
    simp only [step]
    cases hcp : createProposal s.gov pl now with
    | error e => exact Or.inl rfl
    | ok r => exact Or.inl rfl
  | voteCast pid v c now =>
    simp only [step]
    cases hcv : castVote s.gov s.ledger pid v c now with
    | error e => exact Or.inl rfl
    | ok g' => exact Or.inl rfl
  | transferTok src dst a =>
    simp only [step]
    cases hat : applyTransfer s.ledger src dst a with
    | error e => exact Or.inl rfl
    | ok l' => exact Or.inl rfl
  | treasurySpend pid dst a now =>
    simp only [step]
    cases hts : applyTreasury s pid dst a now with
    | error e => exact Or.inl rfl
    | ok s' =>
      rcases applyTreasury_ok_shape hts with ⟨p, -, -, -, -, hs'⟩
      rw [hs']
      exact Or.inl rfl

theorem step_chainInv {s : ChainState} (h : ChainInv s) (op : Op) :
    ChainInv (step s op) := by
  obtain ⟨hh, hp⟩ := h
  rcases step_blocks_shape s op with heq | ⟨b, heq, hht, hpt⟩
  · rw [ChainInv, heq]; exact ⟨hh, hp⟩
  · rw [ChainInv, heq]
    exact chainOk_append hh hp hht hpt

theorem run_inv {ops : List Op} :
    ∀ {s : ChainState}, Inv s → Inv (run s ops) := by
  induction ops with
  | nil => intro s h; exact h
  | cons op rest ih =>
    intro s h
    exact ih (step_inv h op)

theorem run_chainInv {ops : List Op} :
    ∀ {s : ChainState}, ChainInv s → ChainInv (run s ops) := by
  induction ops with
  | nil => intro s h; exact h
  | cons op rest ih =>
    intro s h
    exact ih (step_chainInv h op)

theorem run_blocks_extend (ops : List Op) :
    ∀ s : ChainState, ∃ rest, (run s ops).blocks = s.blocks ++ rest := by
  induction ops with
  | nil => intro s; exact ⟨[], by simp [run]⟩
  | cons op rest ih =>
    intro s
    rcases ih (step s op) with ⟨r1, hr1⟩
    rcases step_blocks_shape s op with heq | ⟨b, heq, -, -⟩
    · refine ⟨r1, ?_⟩
      show (run (step s op) rest).blocks = s.blocks ++ r1
      rw [hr1, heq]
    · refine ⟨[b] ++ r1, ?_⟩
      show (run (step s op) rest).blocks = s.blocks ++ ([b] ++ r1)
      rw [hr1, heq, List.append_assoc]

theorem reachable_inv {s : ChainState} (h : Reachable s) : Inv s ∧ ChainInv s := by
  rcases h with ⟨l0, t0, ops, hnn, hs⟩
  subst hs
  constructor
  · exact run_inv ⟨hnn, by simp [initState]⟩
  · refine run_chainInv ⟨?_, ?_⟩
    · intro i hi; simp [initState] at hi
    · intro j hj; simp [initState] at hj

/-! ## Governance lemmas -/

theorem createProposal_ok_shape {g : GovState} {pl : ProposalPayload} {now : Nat}
    {pid : String} {g' : GovState}
    (hok : createProposal g pl now = .ok (pid, g')) :
    pid = "P" ++ toString g.nextId ∧
    g'.proposals = g.proposals ++
      [{ id := pid, title := pl.title, description := pl.description,
         proposal_type := pl.proposal_type, voting_type := pl.voting_type,
         duration := pl.duration, threshold := pl.threshold,
         status := .Open, created_at := now, votes := [] }] ∧
    g'.nextId = g.nextId + 1 := by
  unfold createProposal at hok
  by_cases h1 : pl.title = ""
  · simp [h1] at hok
  · by_cases h2 : pl.description = ""
    · simp [h1, h2] at hok
    · by_cases h3 : pl.proposal_type ∉ recognizedProposalTypes
      · simp [h1, h2, h3] at hok
      · by_cases h4 : pl.voting_type ∉ recognizedVotingTypes
        · simp [h1, h2, h3, h4] at hok
        · by_cases h5 : pl.duration ≤ 0
          · simp [h1, h2, h3, h4, h5] at hok
          · by_cases h6 : pl.threshold < 0 ∨ 100 < pl.threshold
            · simp [h1, h2, h3, h4, h5, h6] at hok
            · simp only [if_neg h1, if_neg h2, if_neg h3, if_neg h4, if_neg h5,
                if_neg h6, Except.ok.injEq, Prod.mk.injEq] at hok
              obtain ⟨hpid, hg⟩ := hok
              subst hpid
              rw [← hg]
              exact ⟨rfl, rfl, rfl⟩

theorem find?_map_invariant {α : Type} (f : α → α) (p : α → Bool)
    (l : List α) (hf : ∀ a, p (f a) = p a) :
    (l.map f).find? p = (l.find? p).map f := by
  induction l with
  | nil => rfl
  | cons hd tl ih =>
    by_cases hp : p hd = true
    · simp [List.find?, hf hd, hp]
    · have hfalse : p hd = false := by simpa using hp
      simp [List.find?, hf hd, hfalse, ih]

theorem castVote_ok_shape {g : GovState} {l : Ledger} {pid : String}
    {voter : Addr} {choice : String} {now : Nat} {g' : GovState}
    (hok : castVote g l pid voter choice now = .ok g') :
    ∃ p, g.proposals.find? (fun q => q.id == pid) = some p ∧
      evaluateStatus p now = .Open ∧
      (p.votes.any (fun v => v.1 == voter)) = false ∧
      g'.proposals = g.proposals.map (fun q =>
        if q.id == pid then addVote q voter (balanceOf l voter) choice else q) := by
  unfold castVote at hok
  cases hf : g.proposals.find? (fun q => q.id == pid) with
  | none => rw [hf] at hok; simp at hok
  | some p =>
    rw [hf] at hok
    by_cases h1 : evaluateStatus p now ≠ .Open
    · simp [h1] at hok
    · by_cases h2 : p.votes.any (fun v => v.1 == voter) = true
      · simp [h1, h2] at hok
      · simp only [if_neg h1] at hok
        rw [if_neg h2] at hok
        simp only [Except.ok.injEq] at hok
        refine ⟨p, rfl, not_not.mp h1, Bool.eq_false_iff.mpr h2, ?_⟩
        rw [← hok]

/-- The id field is untouched by vote insertion. -/
theorem addVote_id (p : Proposal) (voter : Addr) (w : Int) (choice : String) :
    (addVote p voter w choice).id = p.id := rfl

/-- After a successful vote, the target proposal carries the new vote
record appended to its previous ones. -/
theorem castVote_find {g : GovState} {l : Ledger} {pid : String}
    {voter : Addr} {choice : String} {now : Nat} {g' : GovState}
    (hok : castVote g l pid voter choice now = .ok g') :
    ∃ p, g.proposals.find? (fun q => q.id == pid) = some p ∧
      g'.proposals.find? (fun q => q.id == pid)
        = some (addVote p voter (balanceOf l voter) choice) := by
  rcases castVote_ok_shape hok with ⟨p, hf, -, -, hg⟩
  refine ⟨p, hf, ?_⟩
  rw [hg]
  have hinv : ∀ q : Proposal,
      ((if q.id == pid then addVote q voter (balanceOf l voter) choice else q).id == pid)
        = (q.id == pid) := by
    intro q
    by_cases hq : q.id == pid
    · rw [if_pos hq, addVote_id, hq]
    · rw [if_neg hq]
  rw [find?_map_invariant _ _ _ hinv, hf]
  have hp : (p.id == pid) = true := by simpa using List.find?_some hf
  simp [hp]
  intro hne
  exact absurd (by simpa using hp) hne

/-- An address that is bound nowhere in the ledger has balance 0. -/
theorem balanceOf_not_mem {l : Ledger} {a : Addr} (h : a ∉ l.map Prod.fst) :
    balanceOf l a = 0 := by
  unfold balanceOf
  cases hf : l.find? (fun p => p.1 == a) with
  | none => rfl
  | some p =>
    have hp : (p.1 == a) = true := by simpa using List.find?_some hf
    have hmem : p ∈ l := List.mem_of_find?_eq_some hf
    exact absurd (by
      rw [← show p.1 = a from by simpa using hp]
      exact List.mem_map_of_mem Prod.fst hmem) h

/-- Caller-level sequence of transfer attempts: failures leave the ledger
as it was. -/
def runTransfers (l : Ledger) (ts : List (Addr × Addr × Int)) : Ledger :=
  ts.foldl (fun acc t =>
    match applyTransfer acc t.1 t.2.1 t.2.2 with
    | .ok l' => l'
    | .error _ => acc) l

theorem runTransfers_conserves {ts : List (Addr × Addr × Int)} :
    ∀ {l : Ledger}, wfKeys l →
      wfKeys (runTransfers l ts) ∧ sumBalances (runTransfers l ts) = sumBalances l := by
  induction ts with
  | nil => intro l h; exact ⟨h, rfl⟩
  | cons t rest ih =>
    intro l h
    have hrun : runTransfers l (t :: rest)
        = runTransfers (match applyTransfer l t.1 t.2.1 t.2.2 with
            | .ok l' => l'
            | .error _ => l) rest := rfl
    cases hat : applyTransfer l t.1 t.2.1 t.2.2 with
    | error e =>
      rw [hrun, hat]
      exact ih h
    | ok l' =>
      rw [hrun, hat]
      rcases ih (wfKeys_applyTransfer h hat) with ⟨hw, hs⟩
      exact ⟨hw, by rw [hs, sumBalances_applyTransfer h hat]⟩

/-! ## Claim theorems -/

/-- C2 counterexample: the claim's per-account equations are stated for
every successful `applyTransfer`, but a self-transfer (`from = to`)
succeeds and leaves the sender's balance unchanged, so
`balanceOf(from)_after + amount ≠ balanceOf(from)_before`. -/
theorem C2_counterexample :
    applyTransfer [(("a" : Addr), (5 : Int))] "a" "a" 3 = .ok [("a", 5)] ∧
    ¬ (balanceOf [(("a" : Addr), (5 : Int))] "a" + 3
        = balanceOf [(("a" : Addr), (5 : Int))] "a") := by
  constructor
  · rfl
  · decide

/-- C2 (amended): for every successful `applyTransfer(from, to, amount)`
with `from ≠ to`, the sender's balance after plus `amount` equals the
sender's balance before, and the receiver's balance after equals its
balance before plus `amount`; and across any sequence of transfer
attempts on a well-formed ledger, the sum of all balances is unchanged
(conservation law). -/
theorem C2_transfer_balances_and_conservation :
    (∀ (l l' : Ledger) (src dst : Addr) (amount : Int), src ≠ dst →
      applyTransfer l src dst amount = .ok l' →
      balanceOf l' src + amount = balanceOf l src ∧
      balanceOf l' dst = balanceOf l dst + amount) ∧
    (∀ (l : Ledger) (ts : List (Addr × Addr × Int)), wfKeys l →
      sumBalances (runTransfers l ts) = sumBalances l) := by
  constructor
  · intro l l' src dst amount hne hok
    exact ⟨applyTransfer_balance_src hne hok, applyTransfer_balance_dst hne hok⟩
  · intro l ts h
    exact (runTransfers_conserves h).2

/-- C2 witness: a concrete distinct-address transfer and a concrete
transfer sequence instantiate the amended claim. -/
theorem C2_witness :
    (balanceOf [(("a" : Addr), (5 : Int))] "a" ≠ balanceOf [(("a" : Addr), (5 : Int))] "b") ∧
    (balanceOf [(("b" : Addr), (3 : Int)), ("a", 2)] "a" + 3
        = balanceOf [(("a" : Addr), (5 : Int))] "a" ∧
      balanceOf [(("b" : Addr), (3 : Int)), ("a", 2)] "b"
        = balanceOf [(("a" : Addr), (5 : Int))] "b" + 3) ∧
    sumBalances (runTransfers [(("a" : Addr), (5 : Int))]
      [("a", "b", 3), ("b", "a", 1), ("a", "c", 100)]) = sumBalances [(("a" : Addr), (5 : Int))] := by
  refine ⟨by decide, ?_, ?_⟩
  · exact C2_transfer_balances_and_conservation.1 [("a", 5)] [("b", 3), ("a", 2)]
      "a" "b" 3 (by decide) (by rfl)
  · exact C2_transfer_balances_and_conservation.2 [("a", 5)]
      [("a", "b", 3), ("b", "a", 1), ("a", "c", 100)] (by decide)

/-- C3: a transfer whose amount exceeds the sender's (non-negative)
balance fails with `InsufficientBalance`; a transfer with amount ≤ 0
fails with `InvalidAmount`; in both cases the caller-level step leaves
the whole state — in particular both balances — unchanged. -/
theorem C3_transfer_failures :
    (∀ (l : Ledger) (src dst : Addr) (amount : Int),
      0 ≤ balanceOf l src → balanceOf l src < amount →
      applyTransfer l src dst amount = .error .InsufficientBalance) ∧
    (∀ (l : Ledger) (src dst : Addr) (amount : Int), amount ≤ 0 →
      applyTransfer l src dst amount = .error .InvalidAmount) ∧
    (∀ (s : ChainState) (src dst : Addr) (amount : Int) (e : Err),
      applyTransfer s.ledger src dst amount = .error e →
      step s (.transferTok src dst amount) = s) := by
  refine ⟨?_, ?_, ?_⟩
  · intro l src dst amount h0 hlt
    unfold applyTransfer
    rw [if_neg (by omega), if_pos hlt]
  · intro l src dst amount hle
    unfold applyTransfer
    rw [if_pos hle]
  · intro s src dst amount e herr
    simp only [step]
    rw [herr]

/-- C3 witness: concrete insufficient-balance and non-positive-amount
transfers fail as stated and leave the state unchanged. -/
theorem C3_witness :
    applyTransfer [(("a" : Addr), (5 : Int))] "a" "b" 7 = .error .InsufficientBalance ∧
    applyTransfer [(("a" : Addr), (5 : Int))] "a" "b" 0 = .error .InvalidAmount ∧
    step (initState [(("a" : Addr), (5 : Int))] 0) (.transferTok "a" "b" 7)
      = initState [(("a" : Addr), (5 : Int))] 0 := by
  refine ⟨C3_transfer_failures.1 [("a", 5)] "a" "b" 7 (by decide) (by decide),
    C3_transfer_failures.2.1 [("a", 5)] "a" "b" 0 (by decide),
    C3_transfer_failures.2.2 (initState [("a", 5)] 0) "a" "b" 7
      .InsufficientBalance (by rfl)⟩

/-- C8: `balanceOf` is a total function — on an address with no ledger
entry it returns 0 (never an error), and in every reachable state every
returned balance is non-negative. -/
theorem C8_balanceOf_total :
    (∀ (l : Ledger) (a : Addr), a ∉ l.map Prod.fst → balanceOf l a = 0) ∧
    (∀ (s : ChainState) (a : Addr), Reachable s → 0 ≤ balanceOf s.ledger a) := by
  constructor
  · intro l a h
    exact balanceOf_not_mem h
  · intro s a h
    exact ledgerNonneg_balanceOf (reachable_inv h).1.1 a

/-- C8 witness: a concrete no-history address has balance 0, and a
concrete reachable state returns a non-negative balance. -/
theorem C8_witness :
    balanceOf [(("a" : Addr), (5 : Int))] "nobody" = 0 ∧
    0 ≤ balanceOf (run (initState [(("a" : Addr), (5 : Int))] 0) []).ledger "nobody" := by
  refine ⟨C8_balanceOf_total.1 [("a", 5)] "nobody" (by decide), ?_⟩
  exact C8_balanceOf_total.2 _ "nobody" ⟨[("a", 5)], 0, [], by decide, rfl⟩

/-! ## Concrete fixtures used by witnesses -/

/-- A token allocation used in concrete scenarios. -/
def aliceLedger : Ledger := [("alice", 10)]

/-- A zero-balance voter allocation. -/
def v0Ledger : Ledger := [("v", 0)]

/-- The proposal payload submitted by the observed test corpus. -/
def testPayload : ProposalPayload :=
  { title := "Test Proposal - Governance API Validation",
    description := "Proposal created for testing GET /dao/proposals",
    proposal_type := "general", voting_type := "token-based",
    duration := 3600, threshold := 50 }

/-- An empty genesis block. -/
def gBlk : Block :=
  { height := 0, hash := "h0", parent_hash := none, transactions := [], timestamp := 0 }

/-- A transfer transaction included in the first block of a scenario. -/
def tx1 : Tx := { hash := "t1", payload := .transfer "alice" "bob" 3 }

/-- A valid first block carrying `tx1`. -/
def blk1 : Block :=
  { height := 0, hash := "h1", parent_hash := none, transactions := [tx1], timestamp := 0 }

/-- The state after appending `blk1` to a funded initial state. -/
def s1ex : ChainState := run (initState aliceLedger 5) [.block blk1]

/-- A structurally valid successor block whose transaction duplicates the
already-indexed hash "t1". -/
def blk2 : Block :=
  { height := 1, hash := "h2", parent_hash := some "h1",
    transactions := [{ hash := "t1", payload := .transfer "alice" "bob" 1 }],
    timestamp := 1 }

/-- The empty initial state. -/
def s0ex : ChainState := initState [] 0

/-- The state after appending the genesis block to the empty state. -/
def sG : ChainState := run s0ex [Op.block gBlk]

/-- The state with one freshly created proposal (id "P0"). -/
def s5 : ChainState := run (initState v0Ledger 0) [.propose testPayload 0]

/-- The state after voter "v" cast one vote on proposal "P0". -/
def s6 : ChainState :=
  run (initState v0Ledger 0) [.propose testPayload 0, .voteCast "P0" "v" "no" 1]

/-- The proposal record created from `testPayload` at time 0. -/
def p6 : Proposal :=
  { id := "P0", title := testPayload.title, description := testPayload.description,
    proposal_type := testPayload.proposal_type, voting_type := testPayload.voting_type,
    duration := testPayload.duration, threshold := testPayload.threshold,
    status := .Open, created_at := 0, votes := [] }

/-- A funded state whose proposal "P0" has passed (10 "yes" weight against
threshold 50%). -/
def s9 : ChainState :=
  run (initState aliceLedger 5) [.propose testPayload 0, .voteCast "P0" "alice" "yes" 1]

/-- A treasury transfer referencing the passed proposal "P0". -/
def tx9 : Tx := { hash := "t9", payload := .treasuryTransfer "P0" "bob" 3 }

/-- The state after applying `tx9` to `s9`. -/
def s9' : ChainState :=
  match applyTx s9 5 tx9 with
  | .ok s => s
  | .error _ => s9

/-- C1: if any transaction of a submitted block fails validation during
sequential application — in particular if any of its transactions
duplicates an already-indexed hash — `appendBlock` accepts nothing; and
whenever `appendBlock` rejects, the caller-level state (Chain Store,
Hash Index, Token Ledger, Governance Engine, Treasury) is exactly as it
was before the call: no partial state change occurs. -/
theorem C1_appendBlock_atomic :
    ∀ (s : ChainState) (b : Block),
      ((∃ e, applyTxs s b.timestamp b.transactions = .error e) →
        ∀ s', appendBlock s b ≠ .ok s') ∧
      ((∃ tx ∈ b.transactions, tx.hash ∈ txKeys s) →
        ∀ s', appendBlock s b ≠ .ok s') ∧
      (∀ e, appendBlock s b = .error e →
        step s (.block b) = s ∧
        (step s (.block b)).blocks = s.blocks ∧
        (step s (.block b)).txIndex = s.txIndex ∧
        (step s (.block b)).ledger = s.ledger ∧
        (step s (.block b)).treasury = s.treasury ∧
        (step s (.block b)).gov = s.gov) := by
  intro s b
  refine ⟨?_, ?_, ?_⟩
  · rintro ⟨e, he⟩ s' hok
    rcases appendBlock_ok_shape hok with ⟨-, -, s₀, htxs, -⟩
    rw [he] at htxs
    exact absurd htxs (by simp)
  · rintro ⟨tx, hmem, hdup⟩ s' hok
    rcases appendBlock_ok_shape hok with ⟨-, -, s₀, htxs, -⟩
    exact applyTxs_dup_rejected hmem hdup s₀ htxs
  · intro e herr
    have hstep : step s (.block b) = s := by
      simp only [step]
      rw [herr]
    exact ⟨hstep, by rw [hstep], by rw [hstep], by rw [hstep], by rw [hstep],
      by rw [hstep]⟩

/-- C1 witness: a block whose only transaction reuses the indexed hash
"t1" is rejected whole and the state is untouched. -/
theorem C1_witness :
    (∀ s', appendBlock s1ex blk2 ≠ .ok s') ∧ step s1ex (.block blk2) = s1ex := by
  have h := C1_appendBlock_atomic s1ex blk2
  refine ⟨h.2.1 ⟨{ hash := "t1", payload := .transfer "alice" "bob" 1 },
    by decide, by decide⟩, ?_⟩
  exact (h.2.2 .DuplicateTransaction (by rfl)).1

/-- C5: in every reachable state the stored blocks form a gapless 0-based
height sequence, every block's parent_hash is the hash of its
predecessor, and further operations only ever extend the block sequence
— blocks already appended are never modified. -/
theorem C5_chain_structure :
    ∀ s : ChainState, Reachable s →
      (∀ i (h : i < s.blocks.length), (s.blocks.get ⟨i, h⟩).height = i) ∧
      (∀ j (hj : j + 1 < s.blocks.length),
        (s.blocks.get ⟨j + 1, hj⟩).parent_hash
          = some (s.blocks.get ⟨j, Nat.lt_of_succ_lt hj⟩).hash) ∧
      (∀ ops, ∃ rest, (run s ops).blocks = s.blocks ++ rest) := by
  intro s h
  rcases (reachable_inv h).2 with ⟨hh, hp⟩
  exact ⟨hh, hp, fun ops => run_blocks_extend ops s⟩

/-- C5 witness: the genesis-appended state satisfies the chain-structure
invariants, and appending more operations only extends it. -/
theorem C5_witness :
    (∀ i (h : i < sG.blocks.length), (sG.blocks.get ⟨i, h⟩).height = i) ∧
    (∃ rest, (run sG [Op.block gBlk]).blocks = sG.blocks ++ rest) := by
  have h := C5_chain_structure sG ⟨[], 0, [Op.block gBlk], by decide, rfl⟩
  exact ⟨h.1, h.2.2 [Op.block gBlk]⟩

/-- C4: after the genesis block is appended to an empty chain,
`getBlock "0"` returns a block of height 0 with no parent; an input that
is neither a well-formed digest nor a well-formed non-negative integer
yields `InvalidFormat`; a well-formed height or digest with no
corresponding block yields `NotFound`. -/
theorem C4_getBlock_semantics :
    (∀ (s s' : ChainState) (g : Block), s.blocks = [] → appendBlock s g = .ok s' →
      ∃ b, getBlock s' "0" = .ok b ∧ b.height = 0 ∧ b.parent_hash = none) ∧
    (∀ (s : ChainState) (q : String), isDigest q = false → isHeightStr q = false →
      getBlock s q = .error .InvalidFormat) ∧
    (∀ (s : ChainState) (q : String), isDigest q = false → isHeightStr q = true →
      s.blocks.length ≤ strToNat q → getBlock s q = .error .NotFound) ∧
    (∀ (s : ChainState) (q : String), isDigest q = true →
      s.blocks.find? (fun b => b.hash == q) = none →
      getBlock s q = .error .NotFound) := by
  refine ⟨?_, ?_, ?_, ?_⟩
  · intro s s' g hempty hok
    rcases appendBlock_ok_shape hok with ⟨hht, hpt, s₀, htxs, hs'⟩
    have hb0 : s₀.blocks = [] := by rw [applyTxs_blocks htxs, hempty]
    have hbl : s'.blocks = [g] := by
      rw [hs']
      simp only
      rw [hb0]
      rfl
    refine ⟨g, ?_, ?_, ?_⟩
    · unfold getBlock
      rw [show parseHashOrId "0" = some (.ByHeight 0) from by decide, hbl]
      rfl
    · rw [hht, hempty]
      rfl
    · rw [hpt]
      unfold tipHash
      rw [hempty]
      rfl
  · intro s q h1 h2
    unfold getBlock parseHashOrId
    rw [if_neg (by simp [h1]), if_neg (by simp [h2])]
  · intro s q h1 h2 hle
    unfold getBlock parseHashOrId
    rw [if_neg (by simp [h1]), if_pos h2]
    have hnone : s.blocks[strToNat q]? = none := by
      rw [List.getElem?_eq_none hle]
    show (match s.blocks[strToNat q]? with
      | some b => Except.ok b
      | none => Except.error Err.NotFound) = Except.error Err.NotFound
    rw [hnone]
  · intro s q h1 hf
    unfold getBlock parseHashOrId
    rw [if_pos h1]
    show (match s.blocks.find? (fun b => b.hash == q) with
      | some b => Except.ok b
      | none => Except.error Err.NotFound) = Except.error Err.NotFound
    rw [hf]

/-- C4 witness: the observed test inputs — height "0" after genesis, a
symbol-laden string, the absent height "9999999", and an absent 64-hex
digest — behave as stated on the genesis-appended state. -/
theorem C4_witness :
    (∃ b, getBlock sG "0" = .ok b ∧ b.height = 0 ∧ b.parent_hash = none) ∧
    getBlock sG "!!!invalid_hash@@@" = .error .InvalidFormat ∧
    getBlock sG "9999999" = .error .NotFound ∧
    getBlock sG
      "ffffffffffffffffffffffffffffffffffffffffffffffffffffffffffffffff"
      = .error .NotFound := by
  have h := C4_getBlock_semantics
  exact ⟨h.1 s0ex sG gBlk (by rfl) (by rfl),
    h.2.1 sG "!!!invalid_hash@@@" (by decide) (by decide),
    h.2.2.1 sG "9999999" (by decide) (by decide) (by decide),
    h.2.2.2 sG
      "ffffffffffffffffffffffffffffffffffffffffffffffffffffffffffffffff"
      (by decide) (by rfl)⟩

/-- C10: a well-formed digest that matches no indexed transaction makes
the transaction lookup fail with exactly `NotFound`, never
`InvalidFormat`: the format-versus-absence distinction is fixed for this
lookup. -/
theorem C10_tx_lookup_absent :
    ∀ (s : ChainState) (q : String), isDigest q = true →
      s.txIndex.find? (fun p => p.1 == q) = none →
      getTransaction s q = .error .NotFound ∧
      getTransaction s q ≠ .error .InvalidFormat := by
  intro s q hd hf
  have hnf : getTransaction s q = .error .NotFound := by
    unfold getTransaction
    rw [if_pos hd, hf]
  refine ⟨hnf, ?_⟩
  rw [hnf]
  simp

/-- C10 witness: the 64-hex digest of all f characters is absent from the
genesis-appended state and the lookup reports `NotFound`. -/
theorem C10_witness :
    getTransaction sG
      "ffffffffffffffffffffffffffffffffffffffffffffffffffffffffffffffff"
      = .error .NotFound ∧
    getTransaction sG
      "ffffffffffffffffffffffffffffffffffffffffffffffffffffffffffffffff"
      ≠ .error .InvalidFormat :=
  C10_tx_lookup_absent sG
    "ffffffffffffffffffffffffffffffffffffffffffffffffffffffffffffffff"
    (by decide) (by rfl)

/-- C7: a successful `createProposal` appends exactly one proposal to the
creation-ordered list returned by `listProposals`, and that proposal
carries the submitted id, title, description, proposal_type,
voting_type, duration and threshold. -/
theorem C7_listProposals_after_create :
    ∀ (g g' : GovState) (pl : ProposalPayload) (now : Nat) (pid : String),
      createProposal g pl now = .ok (pid, g') →
      ∃ p, listProposals g' = listProposals g ++ [p] ∧ p.id = pid ∧
        p.title = pl.title ∧ p.description = pl.description ∧
        p.proposal_type = pl.proposal_type ∧ p.voting_type = pl.voting_type ∧
        p.duration = pl.duration ∧ p.threshold = pl.threshold := by
  intro g g' pl now pid hok
  rcases createProposal_ok_shape hok with ⟨hpid, hprops, -⟩
  let p : Proposal :=
    { id := pid, title := pl.title, description := pl.description,
      proposal_type := pl.proposal_type, voting_type := pl.voting_type,
      duration := pl.duration, threshold := pl.threshold,
      status := .Open, created_at := now, votes := [] }
  exact ⟨p, hprops, rfl, rfl, rfl, rfl, rfl, rfl, rfl⟩

/-- The governance state produced by creating the test payload's
proposal in the empty governance state. -/
def gC7 : GovState :=
  match createProposal { proposals := [], nextId := 0 } testPayload 0 with
  | .ok r => r.2
  | .error _ => { proposals := [], nextId := 0 }

/-- C7 witness: creating the test corpus's proposal in the empty
governance state yields id "P0" and the listing contains it with all
submitted fields. -/
theorem C7_witness :
    ∃ p, listProposals gC7
        = listProposals { proposals := [], nextId := 0 } ++ [p] ∧ p.id = "P0" ∧
      p.title = testPayload.title ∧ p.description = testPayload.description ∧
      p.proposal_type = testPayload.proposal_type ∧
      p.voting_type = testPayload.voting_type ∧
      p.duration = testPayload.duration ∧ p.threshold = testPayload.threshold :=
  C7_listProposals_after_create { proposals := [], nextId := 0 } gC7
    testPayload 0 "P0" (by rfl)

/-- C6 counterexample: a second cast from the same voter is NOT always
answered with `DuplicateVote` — the `ProposalClosed` check of §4.4
precedes the duplicate check, so once the proposal's deadline has
elapsed the second cast (here at time 4000, past the 3600-second
duration) returns `ProposalClosed`.  Voter "v" had already voted on
"P0" in state `s6`. -/
theorem C6_counterexample :
    (∃ p, s6.gov.proposals.find? (fun q => q.id == "P0") = some p ∧
      p.votes.any (fun r => r.1 == "v") = true) ∧
    castVote s6.gov s6.ledger "P0" "v" "yes" 4000 = .error .ProposalClosed ∧
    castVote s6.gov s6.ledger "P0" "v" "yes" 4000 ≠ .error .DuplicateVote := by
  refine ⟨⟨addVote p6 "v" 0 "no", by rfl, by rfl⟩, by rfl, ?_⟩
  intro hc
  rw [show castVote s6.gov s6.ledger "P0" "v" "yes" 4000
    = .error .ProposalClosed from rfl] at hc
  simp at hc

/-- Reduction of `castVote` once the proposal lookup is known. -/
theorem castVote_eq_of_find {g : GovState} {l : Ledger} {pid : String}
    {voter : Addr} {choice : String} {now : Nat} {p : Proposal}
    (hf : g.proposals.find? (fun q => q.id == pid) = some p) :
    castVote g l pid voter choice now =
      (if evaluateStatus p now ≠ .Open then .error .ProposalClosed
       else if (p.votes.any fun v => v.1 == voter) = true then
         .error .DuplicateVote
       else
         .ok { g with proposals := g.proposals.map (fun q =>
           if q.id == pid then addVote q voter (balanceOf l voter) choice
           else q) }) := by
  unfold castVote
  rw [hf]

/-- C6 (amended): provided the proposal is still open at the time of the
second cast (its deadline has not elapsed and the tally has not crossed
the threshold), a second vote from the same voter on the same proposal
returns `DuplicateVote` and the caller-level state — in particular the
proposal's vote record and tally — is exactly as before the second
cast. -/
theorem C6_duplicate_vote :
    ∀ (s s' : ChainState) (pid : String) (voter : Addr)
      (choice choice' : String) (now now' : Nat) (g' : GovState) (p : Proposal),
      castVote s.gov s.ledger pid voter choice now = .ok g' →
      s'.gov = g' →
      s.gov.proposals.find? (fun q => q.id == pid) = some p →
      evaluateStatus (addVote p voter (balanceOf s.ledger voter) choice) now'
        = .Open →
      castVote s'.gov s'.ledger pid voter choice' now' = .error .DuplicateVote ∧
      step s' (.voteCast pid voter choice' now') = s' := by
  intro s s' pid voter choice choice' now now' g' p hfirst hgov hp hopen
  rcases castVote_find hfirst with ⟨p₀, hf₀, hf₁⟩
  rw [hp] at hf₀
  injection hf₀ with hpp
  subst hpp
  have hcast : castVote s'.gov s'.ledger pid voter choice' now'
      = .error .DuplicateVote := by
    rw [hgov, castVote_eq_of_find hf₁]
    rw [if_neg (by rw [hopen]; simp)]
    rw [if_pos (by
      show ((addVote p voter (balanceOf s.ledger voter) choice).votes.any
        (fun v => v.1 == voter)) = true
      unfold addVote
      simp)]
  refine ⟨hcast, ?_⟩
  simp only [step]
  rw [hcast]

/-- C6 witness: in the concrete scenario — zero-weight voter "v", second
cast at time 2, well before the deadline — the duplicate vote is
rejected with `DuplicateVote` and the state is untouched. -/
theorem C6_witness :
    castVote s6.gov s6.ledger "P0" "v" "yes" 2 = .error .DuplicateVote ∧
    step s6 (.voteCast "P0" "v" "yes" 2) = s6 :=
  C6_duplicate_vote s5 s6 "P0" "v" "no" "yes" 1 2 s6.gov p6
    (by rfl) rfl (by rfl) (by decide)

/-- C9: the treasury balance query is a total function of the state and
its value is non-negative in every reachable state; a treasury transfer
succeeds only against a proposal that currently evaluates to `passed`
and debits the treasury by exactly its positive amount; and any
transaction application that decreases the treasury is a
treasury_transfer tracing to such a passed proposal. -/
theorem C9_treasury :
    (∀ s : ChainState, Reachable s → 0 ≤ treasuryBalance s) ∧
    (∀ (s : ChainState) (pid : String) (dst : Addr) (amount : Int) (now : Nat)
      (s' : ChainState), applyTreasury s pid dst amount now = .ok s' →
      ∃ p, s.gov.proposals.find? (fun q => q.id == pid) = some p ∧
        evaluateStatus p now = .Passed ∧
        s'.treasury = s.treasury - amount ∧ 0 < amount) ∧
    (∀ (s : ChainState) (now : Nat) (tx : Tx) (s' : ChainState),
      applyTx s now tx = .ok s' → s'.treasury < s.treasury →
      ∃ pid dst a, tx.payload = .treasuryTransfer pid dst a ∧
        ∃ p, s.gov.proposals.find? (fun q => q.id == pid) = some p ∧
          evaluateStatus p now = .Passed) := by
  refine ⟨?_, ?_, ?_⟩
  · intro s h
    exact (reachable_inv h).1.2
  · intro s pid dst amount now s' hok
    rcases applyTreasury_ok_shape hok with ⟨p, hf, hst, hpos, -, hs'⟩
    exact ⟨p, hf, hst, by rw [hs'], hpos⟩
  · intro s now tx s' hok hlt
    rcases (applyTx_ok_shape hok).2 with
      ⟨src, dst, a, l', hp, -, h⟩ | ⟨pl, r, hp, -, h⟩ |
      ⟨pid, voter, choice, g', hp, -, h⟩ | ⟨pid, dst, a, s₀, hp, hap, h⟩
    · exact absurd hlt (by rw [h]; simp [recordTx])
    · exact absurd hlt (by rw [h]; simp [recordTx])
    · exact absurd hlt (by rw [h]; simp [recordTx])
    · rcases applyTreasury_ok_shape hap with ⟨p, hf, hst, -, -, -⟩
      exact ⟨pid, dst, a, hp, p, hf, hst⟩

/-- C9 witness: a concrete reachable state has a non-negative treasury,
and the concrete treasury debit `tx9` (which lowers the balance from 5
to 2) traces to the passed proposal "P0". -/
theorem C9_witness :
    0 ≤ treasuryBalance s9 ∧
    (∃ pid dst a, tx9.payload = .treasuryTransfer pid dst a ∧
      ∃ p, s9.gov.proposals.find? (fun q => q.id == pid) = some p ∧
        evaluateStatus p 5 = .Passed) := by
  have h := C9_treasury
  refine ⟨h.1 s9 ⟨aliceLedger, 5,
    [.propose testPayload 0, .voteCast "P0" "alice" "yes" 1], by decide, rfl⟩, ?_⟩
  exact h.2.2 s9 5 tx9 s9' (by rfl) (by decide)

end BockDAO
